import Mathlib

/-!
Verification development for the `gho` account-management CLI.

The development shallowly embeds the account/credential subsystem of the
repository: the data model of `src/models.rs` (`Protocol`, `AccountKind`,
`Account`, `AccountsFile` and its methods), the lifecycle operations of
`src/commands/account.rs` (`add`, `switch`, `show`, `remove`), the token
masking of `src/keychain.rs` (`mask_token`), and the JSON document shape
produced by the serde derives on the models (used by
`FilesystemStorage::save_accounts` / `load_accounts` in `src/storage.rs`).

Effectful collaborators (the OS keychain and the document store) are
represented by an `Env` of injected results — mirroring how the repository
itself substitutes a `MockStorage` for the `Storage` trait in its tests —
and each lifecycle operation returns, next to its `Result`, the ordered
trace of vault/persistence effects it attempted and the resulting durable
registry (unchanged whenever the operation fails before its save point).
-/

namespace Gho

/-- Git protocol for cloning (`Protocol` in `src/models.rs`): `ssh` or
`https`, serialized lowercase, default `ssh`. -/
inductive Protocol
  | ssh
  | https
  deriving DecidableEq, Repr

/-- Account kind (`AccountKind` in `src/models.rs`): the partition
discriminator, serialized lowercase. -/
inductive AccountKind
  | personal
  | work
  deriving DecidableEq, Repr

/-- A GitHub account configuration (`Account` in `src/models.rs`).
Secrets are never part of this record. -/
structure Account where
  id : String
  kind : AccountKind
  username : String
  default_org : Option String
  protocol : Protocol
  clone_dir : Option String
  deriving DecidableEq, Repr

/-- Container for all accounts (`AccountsFile` in `src/models.rs`): two
ordered partitions plus the active-account pointer. -/
structure AccountsFile where
  personal : List Account
  work : List Account
  active_account_id : Option String
  deriving DecidableEq, Repr

/-- The `Default` derive of `AccountsFile`: all empty. -/
def AccountsFile.empty : AccountsFile :=
  { personal := [], work := [], active_account_id := none }

/-- `AccountsFile::all_accounts`: the flat list, personal first then work,
each in insertion order. -/
def AccountsFile.all_accounts (f : AccountsFile) : List Account :=
  f.personal ++ f.work

/-- `AccountsFile::find_account`: first account (over `all_accounts`) whose
`id` matches. -/
def AccountsFile.find_account (f : AccountsFile) (id : String) : Option Account :=
  f.all_accounts.find? (fun a => a.id == id)

/-- `AccountsFile::active_account`: resolve `active_account_id` through
`find_account`. -/
def AccountsFile.active_account (f : AccountsFile) : Option Account :=
  f.active_account_id.bind (fun id => f.find_account id)

/-- `AccountsFile::add_account`: append to the partition matching the
account kind; performs no duplicate check itself. -/
def AccountsFile.add_account (f : AccountsFile) (a : Account) : AccountsFile :=
  match a.kind with
  | .personal => { f with personal := f.personal ++ [a] }
  | .work => { f with work := f.work ++ [a] }

/-- Remove the first element of the list whose `id` matches, returning it
and the remaining list (the `iter().position` + `Vec::remove` pattern of
`AccountsFile::remove_account`). -/
def removeFirst (id : String) : List Account → Option (Account × List Account)
  | [] => none
  | a :: rest =>
    if a.id == id then some (a, rest)
    else
      match removeFirst id rest with
      | some (r, rest2) => some (r, a :: rest2)
      | none => none

/-- `AccountsFile::remove_account`: search personal then work, remove the
first match, clear `active_account_id` if it equalled the removed id,
return the removed record (with the updated file) or `none`. -/
def AccountsFile.remove_account (f : AccountsFile) (id : String) :
    Option (Account × AccountsFile) :=
  match removeFirst id f.personal with
  | some (a, p2) =>
    let act := if f.active_account_id = some id then none else f.active_account_id
    some (a, { f with personal := p2, active_account_id := act })
  | none =>
    match removeFirst id f.work with
    | some (a, w2) =>
      let act := if f.active_account_id = some id then none else f.active_account_id
      some (a, { f with work := w2, active_account_id := act })
    | none => none

/-- The error type (`AppError` in `src/error.rs`), restricted to the
variants the embedded subsystem constructs; payloads are the formatted
messages. The duplicate-account failure is represented as
`invalidInput "account <id> already exists"`, exactly as
`AppError::invalid_input` is used in `commands/account.rs`. -/
inductive AppError
  | ioErr (msg : String)
  | config (msg : String)
  | accountNotFound (id : String)
  | noActiveAccount
  | keychain (msg : String)
  | json (msg : String)
  | ttyRequired
  | invalidInput (msg : String)
  deriving DecidableEq, Repr

/-- The error `add` returns on a duplicate id
(`AppError::invalid_input(format!("account '{id}' already exists"))`). -/
def duplicateAccountErr (id : String) : AppError :=
  .invalidInput ("account '" ++ id ++ "' already exists")

/-- One attempted external effect of a lifecycle operation: a vault write
(`keychain::store_token`), a vault deletion (`keychain::delete_token`), or
a registry persistence (`Storage::save_accounts`, recording the document
that was handed to the store). Traces list effects in program order. -/
inductive Event
  | vaultStore (id token : String)
  | vaultDelete (id : String)
  | saveDoc (doc : AccountsFile)
  deriving DecidableEq, Repr

/-- Injected outcomes for the effectful collaborators, playing the role of
the repository's `MockStorage` test double plus a fallible keychain:
`none` means the call succeeds, `some e` that it fails with `e`. -/
structure Env where
  storeResult : Option AppError
  deleteResult : Option AppError
  saveResult : Option AppError
  deriving Repr

/-- The all-success environment. -/
def Env.ok : Env := { storeResult := none, deleteResult := none, saveResult := none }

/-- Lifecycle `add` (`commands/account.rs::add`): duplicate check, vault
write first, registry mutation, first-account activation, persistence with
best-effort vault rollback on save failure (the `delete_token` result is
discarded, so `env.deleteResult` never influences the outcome). Returns
the `Result`, the effect trace, and the durable registry. -/
def addOp (env : Env) (reg : AccountsFile) (id username : String) (kind : AccountKind)
    (token : String) (default_org : Option String) (protocol : Protocol)
    (clone_dir : Option String) : Except AppError Unit × List Event × AccountsFile :=
  match reg.find_account id with
  | some _ => (.error (duplicateAccountErr id), [], reg)
  | none =>
    let account : Account :=
      { id := id, kind := kind, username := username, default_org := default_org,
        protocol := protocol, clone_dir := clone_dir }
    match env.storeResult with
    | some e => (.error e, [Event.vaultStore id token], reg)
    | none =>
      let acc1 := reg.add_account account
      let acc2 :=
        if acc1.active_account_id = none then
          { acc1 with active_account_id := some id }
        else acc1
      match env.saveResult with
      | some e =>
        (.error e, [Event.vaultStore id token, Event.saveDoc acc2, Event.vaultDelete id],
          reg)
      | none => (.ok (), [Event.vaultStore id token, Event.saveDoc acc2], acc2)

/-- Lifecycle `switch` (`commands/account.rs::switch`): not-found check,
set the active pointer, persist. No vault interaction. -/
def switchOp (env : Env) (reg : AccountsFile) (id : String) :
    Except AppError Unit × List Event × AccountsFile :=
  match reg.find_account id with
  | none => (.error (.accountNotFound id), [], reg)
  | some _ =>
    let acc := { reg with active_account_id := some id }
    match env.saveResult with
    | some e => (.error e, [Event.saveDoc acc], reg)
    | none => (.ok (), [Event.saveDoc acc], acc)

/-- Lifecycle `show` (`commands/account.rs::show`): the resolved active
account, or `NoActiveAccount`. Read-only. -/
def showOp (reg : AccountsFile) : Except AppError Account :=
  match reg.active_account with
  | some a => .ok a
  | none => .error .noActiveAccount

/-- Lifecycle `remove` (`commands/account.rs::remove`): not-found check,
registry mutation, then — in the order the code executes them — the
best-effort vault deletion (result discarded) followed by persistence. -/
def removeOp (env : Env) (reg : AccountsFile) (id : String) :
    Except AppError Unit × List Event × AccountsFile :=
  match reg.remove_account id with
  | none => (.error (.accountNotFound id), [], reg)
  | some (_, acc) =>
    match env.saveResult with
    | some e => (.error e, [Event.vaultDelete id, Event.saveDoc acc], reg)
    | none => (.ok (), [Event.vaultDelete id, Event.saveDoc acc], acc)

/-- Registry states reachable from the empty registry through the public
lifecycle entry points, under every injected collaborator behaviour. The
durable registry after an operation is the third component of its
result. -/
inductive Reachable : AccountsFile → Prop
  | empty : Reachable AccountsFile.empty
  | addStep (env : Env) (id username : String) (kind : AccountKind) (token : String)
      (default_org : Option String) (protocol : Protocol) (clone_dir : Option String)
      {r : AccountsFile} : Reachable r →
      Reachable (addOp env r id username kind token default_org protocol clone_dir).2.2
  | switchStep (env : Env) (id : String) {r : AccountsFile} : Reachable r →
      Reachable (switchOp env r id).2.2
  | removeStep (env : Env) (id : String) {r : AccountsFile} : Reachable r →
      Reachable (removeOp env r id).2.2

/-! Concrete fixtures used by witnesses and counterexamples. -/

/-- A sample personal account. -/
def acctA : Account :=
  { id := "a", kind := .personal, username := "alice", default_org := none,
    protocol := .ssh, clone_dir := none }

/-- A sample work account. -/
def acctB : Account :=
  { id := "b", kind := .work, username := "bob", default_org := some "org",
    protocol := .https, clone_dir := some "/tmp/w" }

/-- A registry holding only `acctA`, which is active. -/
def regA : AccountsFile :=
  { personal := [acctA], work := [], active_account_id := some "a" }

/-- A registry holding `acctA` (personal) and `acctB` (work), with `acctA`
active. -/
def regAB : AccountsFile :=
  { personal := [acctA], work := [acctB], active_account_id := some "a" }

/-- An environment whose document save fails. -/
def envSaveFail : Env :=
  { storeResult := none, deleteResult := none, saveResult := some (.ioErr "disk full") }

/-- An environment whose vault store fails. -/
def envStoreFail : Env :=
  { storeResult := some (.keychain "denied"), deleteResult := none, saveResult := none }

/-! Helper lemmas about the data-model operations. -/

/-- An account id resolves iff some account in the flat list carries it. -/
theorem find_account_isSome_iff (f : AccountsFile) (id : String) :
    (f.find_account id).isSome ↔ ∃ x ∈ f.all_accounts, x.id = id := by
  simp [AccountsFile.find_account, List.find?_isSome]

/-- An account id fails to resolve iff no account in the flat list carries it. -/
theorem find_account_eq_none_iff (f : AccountsFile) (id : String) :
    f.find_account id = none ↔ ∀ x ∈ f.all_accounts, x.id ≠ id := by
  simp [AccountsFile.find_account, List.find?_eq_none]

/-- Appending an account does not move the active pointer. -/
theorem add_account_active (f : AccountsFile) (a : Account) :
    (f.add_account a).active_account_id = f.active_account_id := by
  cases h : a.kind <;> simp [AccountsFile.add_account, h]

/-- The flat list after `add_account` keeps the account's partition slot:
personal accounts land between the old personal block and the work block. -/
theorem all_accounts_add (f : AccountsFile) (a : Account) :
    (f.add_account a).all_accounts =
      match a.kind with
      | .personal => f.personal ++ a :: f.work
      | .work => f.personal ++ f.work ++ [a] := by
  cases h : a.kind <;> simp [AccountsFile.add_account, AccountsFile.all_accounts, h]

/-- Membership in the flat list survives `add_account`. -/
theorem mem_all_accounts_add (f : AccountsFile) (a x : Account)
    (hx : x ∈ f.all_accounts) : x ∈ (f.add_account a).all_accounts := by
  rcases (List.mem_append.mp hx) with h | h <;>
    cases hk : a.kind <;>
      simp [AccountsFile.add_account, AccountsFile.all_accounts, hk, h]

/-- The added account itself is in the flat list after `add_account`. -/
theorem self_mem_all_accounts_add (f : AccountsFile) (a : Account) :
    a ∈ (f.add_account a).all_accounts := by
  cases hk : a.kind <;> simp [AccountsFile.add_account, AccountsFile.all_accounts, hk]

/-- Changing only the active pointer does not change lookup. -/
theorem find_account_set_active (f : AccountsFile) (act : Option String) (id : String) :
    ({ f with active_account_id := act } : AccountsFile).find_account id =
      f.find_account id := rfl

/-! Lemmas about `removeFirst` and `remove_account`. -/

/-- `removeFirst` finds nothing exactly when no element carries the id. -/
theorem removeFirst_eq_none_iff (id : String) (l : List Account) :
    removeFirst id l = none ↔ ∀ x ∈ l, x.id ≠ id := by
  induction l with
  | nil => simp [removeFirst]
  | cons a rest ih =>
    by_cases h : a.id = id
    · simp [removeFirst, h]
    · simp only [removeFirst, beq_iff_eq, if_neg h]
      cases hr : removeFirst id rest with
      | none =>
        have hall := ih.mp hr
        constructor
        · intro _ x hx
          rcases List.mem_cons.mp hx with rfl | hx
          · exact h
          · exact hall x hx
        · intro _; trivial
      | some pr =>
        obtain ⟨b, rest2⟩ := pr
        constructor
        · intro hc; cases hc
        · intro hall
          have hnone : removeFirst id rest = none :=
            ih.mpr (fun x hx => hall x (List.mem_cons_of_mem a hx))
          rw [hnone] at hr
          cases hr

/-- The record returned by `removeFirst` was in the list and carries the id. -/
theorem removeFirst_mem_self (id : String) (l : List Account) (a : Account)
    (l2 : List Account) (h : removeFirst id l = some (a, l2)) : a ∈ l ∧ a.id = id := by
  induction l generalizing l2 with
  | nil => simp [removeFirst] at h
  | cons b rest ih =>
    by_cases hb : b.id = id
    · simp only [removeFirst, beq_iff_eq, if_pos hb, Option.some.injEq,
        Prod.mk.injEq] at h
      obtain ⟨rfl, -⟩ := h
      exact ⟨List.mem_cons_self b rest, hb⟩
    · simp only [removeFirst, beq_iff_eq, if_neg hb] at h
      cases hr : removeFirst id rest with
      | none => simp only [hr] at h; exact Option.noConfusion h
      | some pr =>
        obtain ⟨c, rest2⟩ := pr
        simp only [hr, Option.some.injEq, Prod.mk.injEq] at h
        obtain ⟨rfl, -⟩ := h
        obtain ⟨hmem, hid⟩ := ih rest2 hr
        exact ⟨List.mem_cons_of_mem b hmem, hid⟩

/-- The remainder produced by `removeFirst` is a sublist of the input. -/
theorem removeFirst_sublist (id : String) (l : List Account) (a : Account)
    (l2 : List Account) (h : removeFirst id l = some (a, l2)) : l2.Sublist l := by
  induction l generalizing l2 with
  | nil => simp [removeFirst] at h
  | cons b rest ih =>
    by_cases hb : b.id = id
    · simp only [removeFirst, beq_iff_eq, if_pos hb, Option.some.injEq,
        Prod.mk.injEq] at h
      obtain ⟨-, rfl⟩ := h
      exact List.sublist_cons_self b rest
    · simp only [removeFirst, beq_iff_eq, if_neg hb] at h
      cases hr : removeFirst id rest with
      | none => simp only [hr] at h; exact Option.noConfusion h
      | some pr =>
        obtain ⟨c, rest2⟩ := pr
        simp only [hr, Option.some.injEq, Prod.mk.injEq] at h
        obtain ⟨rfl, rfl⟩ := h
        exact List.Sublist.cons₂ b (ih rest2 hr)

/-- Elements whose id differs survive `removeFirst`. -/
theorem mem_removeFirst_of_ne (id : String) (l : List Account) (a : Account)
    (l2 : List Account) (h : removeFirst id l = some (a, l2)) (x : Account)
    (hx : x ∈ l) (hne : x.id ≠ id) : x ∈ l2 := by
  induction l generalizing l2 with
  | nil => simp [removeFirst] at h
  | cons b rest ih =>
    by_cases hb : b.id = id
    · simp only [removeFirst, beq_iff_eq, if_pos hb, Option.some.injEq,
        Prod.mk.injEq] at h
      obtain ⟨-, rfl⟩ := h
      rcases List.mem_cons.mp hx with rfl | hx2
      · exact absurd hb hne
      · exact hx2
    · simp only [removeFirst, beq_iff_eq, if_neg hb] at h
      cases hr : removeFirst id rest with
      | none => simp only [hr] at h; exact Option.noConfusion h
      | some pr =>
        obtain ⟨c, rest2⟩ := pr
        simp only [hr, Option.some.injEq, Prod.mk.injEq] at h
        obtain ⟨rfl, rfl⟩ := h
        rcases List.mem_cons.mp hx with rfl | hx2
        · exact List.mem_cons_self x rest2
        · exact List.mem_cons_of_mem b (ih rest2 hr hx2)

/-- `remove_account` fails exactly when lookup fails. -/
theorem remove_account_eq_none_iff (f : AccountsFile) (id : String) :
    f.remove_account id = none ↔ f.find_account id = none := by
  rw [find_account_eq_none_iff]
  cases hp : removeFirst id f.personal with
  | some pr =>
    obtain ⟨a, p2⟩ := pr
    obtain ⟨hmem, hid⟩ := removeFirst_mem_self id f.personal a p2 hp
    simp only [AccountsFile.remove_account, hp]
    constructor
    · intro hc; cases hc
    · intro hall
      exact absurd hid (hall a (List.mem_append_left _ hmem))
  | none =>
    cases hw : removeFirst id f.work with
    | some wr =>
      obtain ⟨a, w2⟩ := wr
      obtain ⟨hmem, hid⟩ := removeFirst_mem_self id f.work a w2 hw
      simp only [AccountsFile.remove_account, hp, hw]
      constructor
      · intro hc; cases hc
      · intro hall
        exact absurd hid (hall a (List.mem_append_right _ hmem))
    | none =>
      simp only [AccountsFile.remove_account, hp, hw]
      have hpAll := (removeFirst_eq_none_iff id f.personal).mp hp
      have hwAll := (removeFirst_eq_none_iff id f.work).mp hw
      constructor
      · intro _ x hx
        rcases List.mem_append.mp hx with hx | hx
        · exact hpAll x hx
        · exact hwAll x hx
      · intro _; trivial

/-- The active pointer of the registry produced by a successful
`remove_account`: cleared when the removed id was active, untouched
otherwise. -/
theorem remove_account_active (f : AccountsFile) (id : String) (a : Account)
    (acc : AccountsFile) (h : f.remove_account id = some (a, acc)) :
    acc.active_account_id =
      (if f.active_account_id = some id then none else f.active_account_id) := by
  unfold AccountsFile.remove_account at h
  cases hp : removeFirst id f.personal with
  | some pr =>
    obtain ⟨b, p2⟩ := pr
    simp only [hp, Option.some.injEq, Prod.mk.injEq] at h
    obtain ⟨h1, h2⟩ := h
    subst_vars
    rfl
  | none =>
    simp only [hp] at h
    cases hw : removeFirst id f.work with
    | none => simp only [hw] at h; exact Option.noConfusion h
    | some wr =>
      obtain ⟨b, w2⟩ := wr
      simp only [hw, Option.some.injEq, Prod.mk.injEq] at h
      obtain ⟨h1, h2⟩ := h
      subst_vars
      rfl

/-- A freshly appended account is found under its own id when the id was
previously absent. -/
theorem find_account_add_self (f : AccountsFile) (a : Account)
    (h : f.find_account a.id = none) :
    (f.add_account a).find_account a.id = some a := by
  have hall := (find_account_eq_none_iff f a.id).mp h
  have hfind : ∀ l : List Account, (∀ x ∈ l, x.id ≠ a.id) →
      l.find? (fun x => x.id == a.id) = none :=
    fun l hl => List.find?_eq_none.mpr (fun x hx => by simpa using hl x hx)
  have hpn : f.personal.find? (fun x => x.id == a.id) = none :=
    hfind _ (fun x hx => hall x (List.mem_append_left _ hx))
  have hwn : f.work.find? (fun x => x.id == a.id) = none :=
    hfind _ (fun x hx => hall x (List.mem_append_right _ hx))
  cases hk : a.kind with
  | personal =>
    simp only [AccountsFile.find_account, AccountsFile.all_accounts,
      AccountsFile.add_account, hk]
    rw [List.append_assoc, List.find?_append, hpn, Option.none_or]
    exact List.find?_cons_of_pos _ (by simp)
  | work =>
    simp only [AccountsFile.find_account, AccountsFile.all_accounts,
      AccountsFile.add_account, hk]
    rw [List.find?_append, hpn, Option.none_or, List.find?_append, hwn,
      Option.none_or]
    exact List.find?_cons_of_pos _ (by simp)

/-- Boolean recognizer for vault-deletion events. -/
def Event.isVaultDelete : Event → Bool
  | .vaultDelete _ => true
  | _ => false

/-- Boolean recognizer for document-write events. -/
def Event.isSaveDoc : Event → Bool
  | .saveDoc _ => true
  | _ => false

/-! Claim theorems. -/

/-- C4: on every registry already containing `id` in either partition, `add`
fails with the duplicate-account error (`InvalidInput "account <id> already
exists"`), attempts no vault write and no document write (empty effect
trace), and leaves the durable registry unchanged. -/
theorem add_duplicate_rejected (env : Env) (reg : AccountsFile) (id username : String)
    (kind : AccountKind) (token : String) (default_org : Option String)
    (protocol : Protocol) (clone_dir : Option String)
    (h : (reg.find_account id).isSome) :
    addOp env reg id username kind token default_org protocol clone_dir =
      (.error (duplicateAccountErr id), [], reg) := by
  obtain ⟨a, ha⟩ := Option.isSome_iff_exists.mp h
  simp [addOp, ha]

/-- Witness for C4: adding a second account under the id `"a"` that `regA`
already holds is rejected with no effects. -/
theorem add_duplicate_rejected_witness :
    addOp Env.ok regA "a" "alice2" .work "tok2" none .https none =
      (.error (duplicateAccountErr "a"), [], regA) :=
  add_duplicate_rejected Env.ok regA "a" "alice2" .work "tok2" none .https none
    (by decide)

/-- C5: a fully successful `add` sets the new id active exactly when no
account was active before, and otherwise leaves the active pointer exactly
as it was. -/
theorem add_active_pointer (env : Env) (reg : AccountsFile) (id username : String)
    (kind : AccountKind) (token : String) (default_org : Option String)
    (protocol : Protocol) (clone_dir : Option String)
    (hdup : reg.find_account id = none) (hstore : env.storeResult = none)
    (hsave : env.saveResult = none) :
    (addOp env reg id username kind token default_org protocol clone_dir).2.2.active_account_id =
      (if reg.active_account_id = none then some id else reg.active_account_id) := by
  simp only [addOp, hdup, hstore, hsave]
  by_cases h : reg.active_account_id = none <;>
    simp [add_account_active, h]

/-- Witness for C5: adding `acctB` to `regA` (whose active account is
`"a"`) leaves the active pointer at `"a"`. -/
theorem add_active_pointer_witness :
    (addOp Env.ok regA "b" "bob" .work "tok-b" (some "org") .https (some "/tmp/w")).2.2.active_account_id =
      (if regA.active_account_id = none then some "b" else regA.active_account_id) :=
  add_active_pointer Env.ok regA "b" "bob" .work "tok-b" (some "org") .https
    (some "/tmp/w") (by decide) rfl rfl

/-- C7: `switch` to a present id sets it active and persists exactly that
registry, with a trace containing only the document write (no vault
interaction); `switch` to an absent id fails with `AccountNotFound`, with
an empty trace and the durable registry unchanged. -/
theorem switch_contract (env : Env) (reg : AccountsFile) (id : String) :
    ((reg.find_account id).isSome → env.saveResult = none →
      switchOp env reg id =
        (.ok (), [Event.saveDoc { reg with active_account_id := some id }],
          { reg with active_account_id := some id })) ∧
    (reg.find_account id = none →
      switchOp env reg id = (.error (.accountNotFound id), [], reg)) := by
  constructor
  · intro h hsave
    obtain ⟨a, ha⟩ := Option.isSome_iff_exists.mp h
    simp [switchOp, ha, hsave]
  · intro h
    simp [switchOp, h]

/-- Witness for C7: switching `regA` to its present account `"a"`
persists the registry with `"a"` active and touches no vault. -/
theorem switch_contract_witness :
    switchOp Env.ok regA "a" =
      (.ok (), [Event.saveDoc { regA with active_account_id := some "a" }],
        { regA with active_account_id := some "a" }) :=
  (switch_contract Env.ok regA "a").1 (by decide) rfl

/-- C8: `show` fails with `NoActiveAccount` exactly when the active pointer
is unset or set to an id that resolves to no account; otherwise it returns
exactly the resolved account (a record that carries no secret field). -/
theorem show_contract (reg : AccountsFile) :
    (showOp reg = .error .noActiveAccount ↔
      (reg.active_account_id = none ∨
        ∃ id, reg.active_account_id = some id ∧ reg.find_account id = none)) ∧
    (∀ a, showOp reg = .ok a ↔ reg.active_account = some a) := by
  constructor
  · cases hact : reg.active_account_id with
    | none => simp [showOp, AccountsFile.active_account, hact]
    | some id =>
      cases hfind : reg.find_account id with
      | none => simp [showOp, AccountsFile.active_account, hact, hfind]
      | some a => simp [showOp, AccountsFile.active_account, hact, hfind]
  · intro a
    cases h : reg.active_account with
    | none => simp [showOp, h]
    | some b => simp [showOp, h]

/-- C1: on a registry not containing `id`, `add` obeys the rollback
contract: (i) if the vault write fails, the operation surfaces that error,
the durable registry is untouched, and the trace shows only the attempted
vault write — no document write; (ii) if the vault write succeeds and
persistence fails, the trace is vault write, attempted document write,
then best-effort vault deletion of the just-written entry, the surfaced
error is the original persistence error (for every injected deletion
outcome, so deletion failure is swallowed), and the durable registry is
untouched; (iii) if both succeed, the vault write strictly precedes the
single document write and the persisted registry contains the new account
under `id`. -/
theorem add_rollback_contract (env : Env) (reg : AccountsFile) (id username : String)
    (kind : AccountKind) (token : String) (default_org : Option String)
    (protocol : Protocol) (clone_dir : Option String)
    (hdup : reg.find_account id = none) :
    (∀ e, env.storeResult = some e →
      addOp env reg id username kind token default_org protocol clone_dir =
        (.error e, [Event.vaultStore id token], reg)) ∧
    (∀ e, env.storeResult = none → env.saveResult = some e →
      ∃ doc, addOp env reg id username kind token default_org protocol clone_dir =
        (.error e,
          [Event.vaultStore id token, Event.saveDoc doc, Event.vaultDelete id], reg)) ∧
    (env.storeResult = none → env.saveResult = none →
      ∃ doc, addOp env reg id username kind token default_org protocol clone_dir =
          (.ok (), [Event.vaultStore id token, Event.saveDoc doc], doc) ∧
        doc.find_account id =
          some { id := id, kind := kind, username := username,
                 default_org := default_org, protocol := protocol,
                 clone_dir := clone_dir }) := by
  refine ⟨?_, ?_, ?_⟩
  · intro e he
    simp [addOp, hdup, he]
  · intro e hs he
    simp only [addOp, hdup, hs, he]
    exact ⟨_, rfl⟩
  · intro hs he
    simp only [addOp, hdup, hs, he]
    refine ⟨_, rfl, ?_⟩
    split
    · exact find_account_add_self reg
        { id := id, kind := kind, username := username, default_org := default_org,
          protocol := protocol, clone_dir := clone_dir } hdup
    · exact find_account_add_self reg
        { id := id, kind := kind, username := username, default_org := default_org,
          protocol := protocol, clone_dir := clone_dir } hdup

/-- Witness for C1: on the empty registry with a failing vault, `add`
surfaces the keychain error, writes no document, and leaves the registry
empty. -/
theorem add_rollback_contract_witness :
    addOp envStoreFail AccountsFile.empty "a" "alice" .personal "tok" none .ssh none =
      (.error (.keychain "denied"), [Event.vaultStore "a" "tok"], AccountsFile.empty) :=
  (add_rollback_contract envStoreFail AccountsFile.empty "a" "alice" .personal "tok"
      none .ssh none rfl).1 (.keychain "denied") rfl

/-- C2 (amended): for a registry containing `id`, `remove` performs the
best-effort vault deletion BEFORE the document write — within one remove,
vault deletion always precedes registry persistence — and if persisting
fails, the vault deletion has already been attempted while the durable
registry stays unchanged and the persistence error is surfaced. -/
theorem remove_effect_order (env : Env) (reg : AccountsFile) (id : String)
    (h : (reg.find_account id).isSome) :
    ∃ a acc, reg.remove_account id = some (a, acc) ∧
      (env.saveResult = none →
        removeOp env reg id =
          (.ok (), [Event.vaultDelete id, Event.saveDoc acc], acc)) ∧
      (∀ e, env.saveResult = some e →
        removeOp env reg id =
          (.error e, [Event.vaultDelete id, Event.saveDoc acc], reg)) := by
  have hne : reg.remove_account id ≠ none := by
    intro h0
    rw [remove_account_eq_none_iff] at h0
    rw [h0] at h
    simp at h
  obtain ⟨⟨a, acc⟩, hr⟩ := Option.ne_none_iff_exists.mp hne
  refine ⟨a, acc, hr.symm, ?_, ?_⟩
  · intro hs
    simp [removeOp, hr.symm, hs]
  · intro e hs
    simp [removeOp, hr.symm, hs]

/-- Witness for C2's amended theorem at a concrete registry. -/
theorem remove_effect_order_witness :
    ∃ a acc, regA.remove_account "a" = some (a, acc) ∧
      (Env.ok.saveResult = none →
        removeOp Env.ok regA "a" =
          (.ok (), [Event.vaultDelete "a", Event.saveDoc acc], acc)) ∧
      (∀ e, Env.ok.saveResult = some e →
        removeOp Env.ok regA "a" =
          (.error e, [Event.vaultDelete "a", Event.saveDoc acc], regA)) :=
  remove_effect_order Env.ok regA "a" (by decide)

/-- Counterexample for C2 as stated: at the concrete registry `regA`, the
`remove` trace places the vault deletion at index 0 and the document write
at index 1 — both when the save succeeds and when it fails — so registry
persistence does NOT precede vault deletion, and after a failed save the
vault entry has already been (best-effort) deleted. -/
theorem remove_persist_order_counterexample :
    (removeOp envSaveFail regA "a").1 = .error (.ioErr "disk full") ∧
    (removeOp envSaveFail regA "a").2.1.findIdx? Event.isVaultDelete = some 0 ∧
    (removeOp envSaveFail regA "a").2.1.findIdx? Event.isSaveDoc = some 1 ∧
    (removeOp Env.ok regA "a").2.1.findIdx? Event.isVaultDelete = some 0 ∧
    (removeOp Env.ok regA "a").2.1.findIdx? Event.isSaveDoc = some 1 :=
  ⟨rfl, rfl, rfl, rfl, rfl⟩

/-- C6: a successful `remove_account` clears the active pointer exactly
when the removed id was active, and leaves it untouched otherwise; and
`remove` of an id absent from the registry fails with `AccountNotFound`,
with an empty effect trace (in particular no vault call) and the durable
registry unchanged. -/
theorem remove_active_pointer (env : Env) (reg : AccountsFile) (id : String) :
    (∀ a acc, reg.remove_account id = some (a, acc) →
      (reg.active_account_id = some id → acc.active_account_id = none) ∧
      (reg.active_account_id ≠ some id →
        acc.active_account_id = reg.active_account_id)) ∧
    (reg.find_account id = none →
      removeOp env reg id = (.error (.accountNotFound id), [], reg)) := by
  constructor
  · intro a acc hr
    have hact := remove_account_active reg id a acc hr
    constructor
    · intro h; rw [hact, if_pos h]
    · intro h; rw [hact, if_neg h]
  · intro h
    have h0 : reg.remove_account id = none :=
      (remove_account_eq_none_iff reg id).mpr h
    simp [removeOp, h0]

/-- Witness for C6: removing the active `"a"` from `regAB` clears the
pointer, and removing the absent `"zzz"` fails with no effects. -/
theorem remove_active_pointer_witness :
    ({ personal := [], work := [acctB], active_account_id := none } :
        AccountsFile).active_account_id = none ∧
    removeOp Env.ok regAB "zzz" = (.error (.accountNotFound "zzz"), [], regAB) :=
  ⟨((remove_active_pointer Env.ok regAB "a").1 acctA
      { personal := [], work := [acctB], active_account_id := none }
      (by decide)).1 rfl,
    (remove_active_pointer Env.ok regAB "zzz").2 (by decide)⟩

/-! The registry well-formedness invariant and its preservation (C3). -/

/-- All account ids in the registry, personal partition first. -/
def ids (f : AccountsFile) : List String :=
  f.all_accounts.map (fun a => a.id)

/-- The registry invariant of the spec: every id appears at most once
across both partitions, and a set active pointer resolves to an existing
account. -/
def Wf (f : AccountsFile) : Prop :=
  (ids f).Nodup ∧
    ∀ id, f.active_account_id = some id → (f.find_account id).isSome

/-- The id multiset after `add_account` is the old one plus the new id. -/
theorem ids_add_perm (r : AccountsFile) (a : Account) :
    (ids (r.add_account a)).Perm (a.id :: ids r) := by
  obtain ⟨aid, akind, auser, aorg, aproto, adir⟩ := a
  cases akind with
  | personal =>
    simp only [ids, AccountsFile.add_account, AccountsFile.all_accounts,
      List.append_assoc, List.map_append, List.map_cons, List.map_nil,
      List.singleton_append]
    exact List.perm_middle
  | work =>
    simp only [ids, AccountsFile.add_account, AccountsFile.all_accounts,
      List.append_assoc, List.map_append, List.map_cons, List.map_nil,
      List.singleton_append]
    exact (List.Perm.append_left _ (List.perm_append_singleton _ _)).trans
      List.perm_middle

/-- Appending an account with a fresh id keeps the ids duplicate-free. -/
theorem nodup_ids_add (r : AccountsFile) (a : Account)
    (hf : r.find_account a.id = none) (hn : (ids r).Nodup) :
    (ids (r.add_account a)).Nodup := by
  have hall := (find_account_eq_none_iff r a.id).mp hf
  have hnotmem : a.id ∉ ids r := by
    intro hm
    obtain ⟨x, hx, hxid⟩ := List.mem_map.mp hm
    exact hall x hx hxid
  exact (ids_add_perm r a).nodup_iff.mpr (List.nodup_cons.mpr ⟨hnotmem, hn⟩)

/-- A successful `add` step (vault and save both succeed, id fresh)
preserves the invariant. -/
theorem wf_add_op (r : AccountsFile) (a : Account)
    (hf : r.find_account a.id = none) (hw : Wf r) :
    Wf (if (r.add_account a).active_account_id = none
        then { r.add_account a with active_account_id := some a.id }
        else r.add_account a) := by
  have hnodup := nodup_ids_add r a hf hw.1
  by_cases hact : (r.add_account a).active_account_id = none
  · rw [if_pos hact]
    refine ⟨hnodup, ?_⟩
    intro id0 h0
    have he : a.id = id0 := by simpa using h0
    subst he
    have hfd : (({ r.add_account a with active_account_id := some a.id } :
        AccountsFile).find_account a.id) = some a := find_account_add_self r a hf
    simp [hfd]
  · rw [if_neg hact]
    refine ⟨hnodup, ?_⟩
    intro id0 h0
    rw [add_account_active] at h0
    have hs := hw.2 id0 h0
    rw [find_account_isSome_iff] at hs ⊢
    obtain ⟨x, hx, hid⟩ := hs
    exact ⟨x, mem_all_accounts_add r a x hx, hid⟩

/-- The flat account list shrinks to a sublist under `remove_account`. -/
theorem all_accounts_remove_sublist (f : AccountsFile) (id : String) (a : Account)
    (acc : AccountsFile) (h : f.remove_account id = some (a, acc)) :
    acc.all_accounts.Sublist f.all_accounts := by
  unfold AccountsFile.remove_account at h
  cases hp : removeFirst id f.personal with
  | some pr =>
    obtain ⟨b, p2⟩ := pr
    simp only [hp, Option.some.injEq, Prod.mk.injEq] at h
    obtain ⟨h1, h2⟩ := h
    subst_vars
    exact List.Sublist.append (removeFirst_sublist id f.personal b p2 hp)
      (List.Sublist.refl _)
  | none =>
    simp only [hp] at h
    cases hww : removeFirst id f.work with
    | none => simp only [hww] at h; exact Option.noConfusion h
    | some wr =>
      obtain ⟨b, w2⟩ := wr
      simp only [hww, Option.some.injEq, Prod.mk.injEq] at h
      obtain ⟨h1, h2⟩ := h
      subst_vars
      exact List.Sublist.append (List.Sublist.refl _)
        (removeFirst_sublist id f.work b w2 hww)

/-- Accounts with a different id survive `remove_account`. -/
theorem mem_all_accounts_remove (f : AccountsFile) (id : String) (a : Account)
    (acc : AccountsFile) (h : f.remove_account id = some (a, acc)) (x : Account)
    (hx : x ∈ f.all_accounts) (hne : x.id ≠ id) : x ∈ acc.all_accounts := by
  unfold AccountsFile.remove_account at h
  cases hp : removeFirst id f.personal with
  | some pr =>
    obtain ⟨b, p2⟩ := pr
    simp only [hp, Option.some.injEq, Prod.mk.injEq] at h
    obtain ⟨h1, h2⟩ := h
    subst_vars
    rcases List.mem_append.mp hx with hx2 | hx2
    · exact List.mem_append_left _
        (mem_removeFirst_of_ne id f.personal b p2 hp x hx2 hne)
    · exact List.mem_append_right _ hx2
  | none =>
    simp only [hp] at h
    cases hww : removeFirst id f.work with
    | none => simp only [hww] at h; exact Option.noConfusion h
    | some wr =>
      obtain ⟨b, w2⟩ := wr
      simp only [hww, Option.some.injEq, Prod.mk.injEq] at h
      obtain ⟨h1, h2⟩ := h
      subst_vars
      rcases List.mem_append.mp hx with hx2 | hx2
      · exact List.mem_append_left _ hx2
      · exact List.mem_append_right _
          (mem_removeFirst_of_ne id f.work b w2 hww x hx2 hne)

/-- A successful `remove_account` preserves the invariant. -/
theorem wf_remove_op (r : AccountsFile) (id : String) (a : Account)
    (acc : AccountsFile) (hr : r.remove_account id = some (a, acc)) (hw : Wf r) :
    Wf acc := by
  refine ⟨?_, ?_⟩
  · have hsub := List.Sublist.map (fun x : Account => x.id)
      (all_accounts_remove_sublist r id a acc hr)
    exact List.Nodup.sublist hsub hw.1
  · intro id0 h0
    rw [remove_account_active r id a acc hr] at h0
    by_cases hact : r.active_account_id = some id
    · rw [if_pos hact] at h0; cases h0
    · rw [if_neg hact] at h0
      have hne : id0 ≠ id := by
        rintro rfl
        exact hact h0
      have hs := hw.2 id0 h0
      rw [find_account_isSome_iff] at hs ⊢
      obtain ⟨x, hx, hxid⟩ := hs
      exact ⟨x, mem_all_accounts_remove r id a acc hr x hx (by rw [hxid]; exact hne),
        hxid⟩

/-- A successful `switch` to a present id preserves the invariant. -/
theorem wf_switch_op (r : AccountsFile) (id : String)
    (h : (r.find_account id).isSome) (hw : Wf r) :
    Wf { r with active_account_id := some id } := by
  refine ⟨hw.1, ?_⟩
  intro id0 h0
  have he : id = id0 := by simpa using h0
  subst he
  exact h

/-- C3: every registry state reachable from the empty registry through any
sequence of the public lifecycle operations `add`, `switch`, `remove` —
under every injected collaborator behaviour — satisfies the invariant:
each id appears at most once across the two partitions, and a set active
pointer resolves to an existing account. -/
theorem reachable_registry_wf (f : AccountsFile) (h : Reachable f) : Wf f := by
  induction h with
  | empty =>
    refine ⟨?_, ?_⟩
    · simp [ids, AccountsFile.empty, AccountsFile.all_accounts]
    · intro id h0
      simp [AccountsFile.empty] at h0
  | addStep env id username kind token default_org protocol clone_dir hrec ih =>
    rename_i r
    cases hf : r.find_account id with
    | some a => simpa [addOp, hf] using ih
    | none =>
      cases hs : env.storeResult with
      | some e => simpa [addOp, hf, hs] using ih
      | none =>
        cases hv : env.saveResult with
        | some e => simpa [addOp, hf, hs, hv] using ih
        | none =>
          simp only [addOp, hf, hs, hv]
          exact wf_add_op r
            { id := id, kind := kind, username := username,
              default_org := default_org, protocol := protocol,
              clone_dir := clone_dir } hf ih
  | switchStep env id hrec ih =>
    rename_i r
    cases hf : r.find_account id with
    | none => simpa [switchOp, hf] using ih
    | some a =>
      cases hv : env.saveResult with
      | some e => simpa [switchOp, hf, hv] using ih
      | none =>
        simp only [switchOp, hf, hv]
        exact wf_switch_op r id (by simp [hf]) ih
  | removeStep env id hrec ih =>
    rename_i r
    cases hrm : r.remove_account id with
    | none => simpa [removeOp, hrm] using ih
    | some pr =>
      obtain ⟨a, acc⟩ := pr
      cases hv : env.saveResult with
      | some e => simpa [removeOp, hrm, hv] using ih
      | none =>
        simp only [removeOp, hrm, hv]
        exact wf_remove_op r id a acc hrm ih

/-- Witness for C3: the invariant instantiated at the empty registry,
which is reachable by the empty operation sequence. -/
theorem reachable_registry_wf_witness : Wf AccountsFile.empty :=
  reachable_registry_wf AccountsFile.empty Reachable.empty

/-! JSON document shape of the accounts file (C9).

`FilesystemStorage::save_accounts` serializes the `AccountsFile` with
`serde_json::to_string_pretty` and `load_accounts` parses it back with
`serde_json::from_str`. The serde derive attributes on the models fix the
JSON-value shape: lowercase enum tags, `skip_serializing_if` omitting
`None` options, `#[serde(default)]` supplying missing fields. The model
below embeds the document at the JSON-value level (strings, arrays,
objects), which is the part the repository's code determines; the
text-level printing/parsing is `serde_json` library code. -/

/-- A JSON value, restricted to the constructors the accounts document
uses. -/
inductive Json
  | str (s : String)
  | arr (elems : List Json)
  | obj (fields : List (String × Json))

/-- First field with the given key, if any. -/
def getField (fields : List (String × Json)) (k : String) : Option Json :=
  (fields.find? (fun f => f.1 == k)).map (fun f => f.2)

/-- Expect a JSON string. -/
def asStr : Json → Option String
  | .str s => some s
  | _ => none

/-- Expect a JSON array. -/
def asArr : Json → Option (List Json)
  | .arr elems => some elems
  | _ => none

/-- Serialization of `AccountKind` (`rename_all = "lowercase"`). -/
def encodeKind : AccountKind → Json
  | .personal => .str "personal"
  | .work => .str "work"

/-- Deserialization of `AccountKind`. -/
def decodeKind : Json → Option AccountKind
  | .str "personal" => some .personal
  | .str "work" => some .work
  | _ => none

/-- Serialization of `Protocol` (`rename_all = "lowercase"`). -/
def encodeProtocol : Protocol → Json
  | .ssh => .str "ssh"
  | .https => .str "https"

/-- Deserialization of `Protocol`. -/
def decodeProtocol : Json → Option Protocol
  | .str "ssh" => some .ssh
  | .str "https" => some .https
  | _ => none

/-- Serialization of `Account`: fields in declaration order; `default_org`
and `clone_dir` omitted when `None` (`skip_serializing_if`); `protocol`
always present. -/
def encodeAccount (a : Account) : Json :=
  .obj ([("id", .str a.id), ("kind", encodeKind a.kind),
      ("username", .str a.username)] ++
    (match a.default_org with
      | some s => [("default_org", Json.str s)]
      | none => []) ++
    [("protocol", encodeProtocol a.protocol)] ++
    (match a.clone_dir with
      | some s => [("clone_dir", Json.str s)]
      | none => []))

/-- Deserialization of an optional string field: an absent field is `None`
(the `#[serde(default)]` on `Option` fields). -/
def decodeOptStrField (fs : List (String × Json)) (k : String) :
    Option (Option String) :=
  match getField fs k with
  | none => some none
  | some v => (asStr v).map some

/-- Deserialization of the `protocol` field: absent means the `Protocol`
default `Ssh` (`#[serde(default)]`). -/
def decodeProtocolField (fs : List (String × Json)) : Option Protocol :=
  match getField fs "protocol" with
  | none => some Protocol.ssh
  | some v => decodeProtocol v

/-- Deserialization of `Account`. -/
def decodeAccount (j : Json) : Option Account :=
  match j with
  | .obj fs =>
    match getField fs "id" >>= asStr, getField fs "kind" >>= decodeKind,
        getField fs "username" >>= asStr, decodeOptStrField fs "default_org",
        decodeProtocolField fs, decodeOptStrField fs "clone_dir" with
    | some id, some kind, some username, some default_org, some protocol,
        some clone_dir =>
      some { id := id, kind := kind, username := username,
             default_org := default_org, protocol := protocol,
             clone_dir := clone_dir }
    | _, _, _, _, _, _ => none
  | _ => none

/-- Deserialization of a JSON array of accounts. -/
def decodeAccounts : List Json → Option (List Account)
  | [] => some []
  | j :: rest =>
    match decodeAccount j, decodeAccounts rest with
    | some a, some rest2 => some (a :: rest2)
    | _, _ => none

/-- Serialization of the accounts document: `personal`, `work`,
`active_account_id` (omitted when `None`). -/
def encodeAccountsFile (f : AccountsFile) : Json :=
  .obj ([("personal", .arr (f.personal.map encodeAccount)),
      ("work", .arr (f.work.map encodeAccount))] ++
    (match f.active_account_id with
      | some s => [("active_account_id", Json.str s)]
      | none => []))

/-- Deserialization of a partition field: absent means empty
(`#[serde(default)]` on the `Vec` fields). -/
def decodeListField (fs : List (String × Json)) (k : String) :
    Option (List Account) :=
  match getField fs k with
  | none => some []
  | some v =>
    match asArr v with
    | none => none
    | some js => decodeAccounts js

/-- Deserialization of the accounts document. -/
def decodeAccountsFile (j : Json) : Option AccountsFile :=
  match j with
  | .obj fs =>
    match decodeListField fs "personal", decodeListField fs "work",
        decodeOptStrField fs "active_account_id" with
    | some personal, some work, some active =>
      some { personal := personal, work := work, active_account_id := active }
    | _, _, _ => none
  | _ => none

/-- Per-account round-trip through the document shape. -/
theorem decodeAccount_encode (a : Account) :
    decodeAccount (encodeAccount a) = some a := by
  obtain ⟨id, kind, username, dOrg, proto, cDir⟩ := a
  cases kind <;> cases proto <;> cases dOrg <;> cases cDir <;> rfl

/-- Round-trip for account lists. -/
theorem decodeAccounts_map_encode (l : List Account) :
    decodeAccounts (l.map encodeAccount) = some l := by
  induction l with
  | nil => rfl
  | cons a rest ih =>
    simp [decodeAccounts, decodeAccount_encode a, ih]

/-- Document-level round-trip for every registry value. -/
theorem accountsFile_roundtrip (f : AccountsFile) :
    decodeAccountsFile (encodeAccountsFile f) = some f := by
  obtain ⟨p, w, act⟩ := f
  cases act with
  | none =>
    simp [encodeAccountsFile, decodeAccountsFile, decodeListField,
      decodeOptStrField, getField, asArr, decodeAccounts_map_encode]
  | some s =>
    simp [encodeAccountsFile, decodeAccountsFile, decodeListField,
      decodeOptStrField, getField, asArr, asStr, decodeAccounts_map_encode]

/-- C9: for every registry constructed via the public lifecycle
operations, saving the accounts document and loading it back yields an
equal registry — same accounts in the same partitions in the same order,
same active pointer. -/
theorem save_load_roundtrip (f : AccountsFile) (_h : Reachable f) :
    decodeAccountsFile (encodeAccountsFile f) = some f :=
  accountsFile_roundtrip f

/-- Witness for C9 at the empty (reachable) registry. -/
theorem save_load_roundtrip_witness :
    decodeAccountsFile (encodeAccountsFile AccountsFile.empty) =
      some AccountsFile.empty :=
  save_load_roundtrip AccountsFile.empty Reachable.empty

/-! Token masking (C10).

`keychain::mask_token` works on the Rust `&str` as UTF-8 BYTES:
`token.len()` is the byte length, `"*".repeat(len)` produces `len`
asterisks, and `&token[..4]` / `&token[token.len() - 4..]` are BYTE slices
that PANIC when the boundary index falls inside a multi-byte UTF-8
character. The token is therefore modelled as its list of UTF-8 bytes and
the panic as `Except.error ()`. Byte 42 is `*`, byte 46 is `.`. -/

/-- A UTF-8 continuation byte (`0b10xxxxxx`). -/
def isUtf8ContByte (b : Nat) : Bool :=
  b &&& 0xC0 == 0x80

/-- Rust's `str::is_char_boundary` on the byte list: index 0 is a
boundary; an in-range index is a boundary iff the byte there is not a
continuation byte; past the end only the length itself is. -/
def isCharBoundary (bytes : List Nat) (i : Nat) : Bool :=
  if i = 0 then true
  else
    match bytes.get? i with
    | some b => ! isUtf8ContByte b
    | none => i == bytes.length

/-- `keychain::mask_token` on the token's UTF-8 bytes: short tokens (at
most 8 bytes) become that many asterisks; longer tokens become the first
four bytes, `"..."`, and the last four bytes — but the two byte slices
panic (`.error ()`) when index 4 or `len - 4` is not a character
boundary. -/
def maskToken (token : List Nat) : Except Unit (List Nat) :=
  if token.length ≤ 8 then
    .ok (List.replicate token.length 42)
  else
    if isCharBoundary token 4 && isCharBoundary token (token.length - 4) then
      .ok (token.take 4 ++ [46, 46, 46] ++ token.drop (token.length - 4))
    else
      .error ()

/-- C10 (amended): `mask_token` is total only on tokens whose slice
boundaries are UTF-8 character boundaries: a token of at most 8 BYTES
yields that many asterisks; a longer token whose byte indices 4 and
`len - 4` are character boundaries yields its first four bytes, `"..."`,
and its last four bytes; a longer token where either index falls inside a
multi-byte character makes the byte slicing panic. -/
theorem mask_token_contract (token : List Nat) :
    (token.length ≤ 8 →
      maskToken token = .ok (List.replicate token.length 42)) ∧
    (8 < token.length → isCharBoundary token 4 = true →
      isCharBoundary token (token.length - 4) = true →
      maskToken token =
        .ok (token.take 4 ++ [46, 46, 46] ++ token.drop (token.length - 4))) ∧
    (8 < token.length →
      (isCharBoundary token 4 = false ∨
        isCharBoundary token (token.length - 4) = false) →
      maskToken token = .error ()) := by
  refine ⟨?_, ?_, ?_⟩
  · intro h
    simp [maskToken, h]
  · intro h h4 hl
    rw [maskToken, if_neg (by omega), if_pos (by simp [h4, hl])]
  · intro h hbad
    rw [maskToken, if_neg (by omega), if_neg ?_]
    rcases hbad with hb | hb <;> simp [hb]

/-- Witness for C10's amended theorem: the 20-byte ASCII token
`"ghp_1234567890abcdef"` (the repository's own test vector) masks to
`"ghp_...cdef"`, and an 8-byte token masks to eight asterisks. -/
theorem mask_token_contract_witness :
    maskToken [103, 104, 112, 95, 49, 50, 51, 52, 53, 54, 55, 56, 57, 48,
        97, 98, 99, 100, 101, 102] =
      .ok [103, 104, 112, 95, 46, 46, 46, 99, 100, 101, 102] ∧
    maskToken [115, 104, 111, 114, 116, 115, 104, 116] =
      .ok (List.replicate 8 42) :=
  ⟨by
    rw [(mask_token_contract _).2.1 (by decide) (by decide) (by decide)]
    rfl,
   (mask_token_contract _).1 (by decide)⟩

/-- Counterexample for C10 as stated: the three-character token
`"あああ"` has the nine UTF-8 bytes below (more than 8), and byte index 4
falls inside the second character, so `&token[..4]` panics — `mask_token`
is not panic-free on non-ASCII tokens. -/
theorem mask_token_panics_on_multibyte :
    maskToken [0xE3, 0x81, 0x82, 0xE3, 0x81, 0x82, 0xE3, 0x81, 0x82] =
      .error () := rfl

end Gho
